import Mathlib

/-!
Verification of the algorithmic core of the gheval repository (GhCommons.py,
GhLandCover.py) against its natural-language specification.

Real numbers computed by the Python code with floats are modelled with exact
rationals (`ℚ`); machine integers with `ℕ`/`ℤ`.  `math.sqrt` appears only in
`_closest_point_on_segment`, whose embedding therefore returns the squared
distance (the source returns its square root; zero / non-negativity statements
transfer along `Real.sqrt`).  Strings are modelled as `List Char`; the small
anchored regular expressions of the coordinate parser are hand-translated to
deterministic matchers with the same semantics.
-/

set_option allowUnsafeReducibility true
attribute [semireducible] Rat.add Rat.mul Rat.inv Rat.sub Rat.ofScientific

namespace GhEval

/-! ## Road distance scoring (GhCommons.road_distance_to_score) -/

/-- Embedding of `road_distance_to_score` (GhCommons.py lines 527-542):
distance in meters (float, modelled as `ℚ`) to a 1-5 risk score. -/
def road_distance_to_score (distance_m : ℚ) : ℤ :=
  if distance_m > 1000 then 1
  else if distance_m > 500 then 2
  else if distance_m > 200 then 3
  else if distance_m > 50 then 4
  else 5

/-! ## Closest point on segment (GhCommons._closest_point_on_segment)

The source computes `cos_lat = math.cos(math.radians(plat))` and from then on
works with plain arithmetic.  The transcendental cosine is abstracted as the
parameter `cosLat`; everything after it is translated literally.  The third
component returned below is the squared distance `cx*cx + cy*cy`; the Python
function returns `math.sqrt` of it. -/

/-- Local tangent-plane x coordinate of a longitude relative to the query
point: `(lng - plng) * m_per_deg_lng` with `m_per_deg_lng = 111320 * cos_lat`. -/
def locX (cosLat plng lng : ℚ) : ℚ := (lng - plng) * (111320 * cosLat)

/-- Local tangent-plane y coordinate: `(lat - plat) * 111320`. -/
def locY (plat lat : ℚ) : ℚ := (lat - plat) * 111320

/-- Embedding of `_closest_point_on_segment` (GhCommons.py lines 492-524).
Returns `(closest_lat, closest_lng, squared_distance)`. -/
def closest_point_on_segment (cosLat plat plng alat alng blat blng : ℚ) :
    ℚ × ℚ × ℚ :=
  let mLat : ℚ := 111320
  let mLng : ℚ := 111320 * cosLat
  let ax := locX cosLat plng alng
  let ay := locY plat alat
  let bx := locX cosLat plng blng
  let byy := locY plat blat
  let dx := bx - ax
  let dy := byy - ay
  let segLenSq := dx * dx + dy * dy
  if segLenSq = 0 then (alat, alng, ax * ax + ay * ay)
  else
    let t := max 0 (min 1 ((-ax * dx - ay * dy) / segLenSq))
    let cx := ax + t * dx
    let cy := ay + t * dy
    (plat + cy / mLat, plng + cx / mLng, cx * cx + cy * cy)

/-! ## Coordinate parsing (GhCommons.parse_coordinates and helpers)

Python strings are modelled as `List Char`.  The anchored regular expressions
used by `_split_coord_text`, `_parse_single_coord` and `_parse_korean_dms`
are hand-translated into deterministic matchers with the same semantics
(all their bounded-repetition groups are followed by tokens that can never
match a digit, so maximal-munch digit scanning is equivalent to the engine's
backtracking).  Python `\s` and `str.strip()` are modelled over the ASCII
whitespace characters. -/

/-- ASCII whitespace, modelling Python `\s` / `str.strip()` on the inputs of
interest. -/
def pySpace (c : Char) : Bool :=
  c == ' ' || c == '\t' || c == '\n' || c == '\r' ||
  c == Char.ofNat 11 || c == Char.ofNat 12

/-- Python `str.strip()`. -/
def pyStrip (l : List Char) : List Char :=
  ((l.dropWhile pySpace).reverse.dropWhile pySpace).reverse

/-- Strip trailing whitespace only. -/
def dropTrailingWS (l : List Char) : List Char :=
  (l.reverse.dropWhile pySpace).reverse

/-- Skip `\s*`. -/
def skipWS (l : List Char) : List Char := l.dropWhile pySpace

/-- Match `\s+`: at least one whitespace character. -/
def skipWS1 (l : List Char) : Option (List Char) :=
  match l with
  | c :: rest => if pySpace c then some (rest.dropWhile pySpace) else none
  | [] => none

/-- Digit list to natural number. -/
def digitsToNat (ds : List Char) : ℕ :=
  ds.foldl (fun a c => 10 * a + (c.toNat - 48)) 0

/-- Optional leading `-` (the regexes use `(-?)`). -/
def matchNeg (l : List Char) : Bool × List Char :=
  match l with
  | c :: r => if c = '-' then (true, r) else (false, l)
  | [] => (false, l)

/-- Match `\d{1,maxLen}` by maximal munch (every use site is followed by a
token that cannot match a digit, so this equals the regex semantics). -/
def matchNumNoFrac (maxLen : ℕ) (l : List Char) : Option (ℕ × List Char) :=
  let (ds, rest) := l.span Char.isDigit
  if ds.length = 0 ∨ maxLen < ds.length then none
  else some (digitsToNat ds, rest)

/-- Match `\d{1,maxLen}(?:\.\d+)?` as an exact rational. -/
def matchNumFrac (maxLen : ℕ) (l : List Char) : Option (ℚ × List Char) :=
  let (ds, rest) := l.span Char.isDigit
  if ds.length = 0 ∨ maxLen < ds.length then none
  else
    match rest with
    | c :: rr =>
      if c = '.' then
        let (fs, rest2) := rr.span Char.isDigit
        if fs.length = 0 then none
        else some ((digitsToNat ds : ℚ) + (digitsToNat fs : ℚ) / 10 ^ fs.length, rest2)
      else some ((digitsToNat ds : ℚ), rest)
    | [] => some ((digitsToNat ds : ℚ), [])

/-- Require the next character to be `c`. -/
def expectChar (c : Char) (l : List Char) : Option (List Char) :=
  match l with
  | x :: r => if x = c then some r else none
  | [] => none

/-- Require the next character to be in the class `cs`. -/
def expectOneOf (cs : List Char) (l : List Char) : Option (List Char) :=
  match l with
  | x :: r => if x ∈ cs then some r else none
  | [] => none

/-- Optionally consume one character from the class `cs` (regex `[cs]?`). -/
def optOneOf (cs : List Char) (l : List Char) : List Char :=
  match l with
  | x :: r => if x ∈ cs then r else l
  | [] => []

/-- The minute marks of `_parse_single_coord`: `'`, `′`, `’`. -/
def minMarks : List Char := [Char.ofNat 39, Char.ofNat 0x2032, Char.ofNat 0x2019]

/-- The second marks: `"`, `″`, `”`. -/
def secMarks : List Char := [Char.ofNat 34, Char.ofNat 0x2033, Char.ofNat 0x201d]

/-- The end marks accepted after DDM minutes (union of minute and second marks). -/
def endMarks : List Char := minMarks ++ secMarks

/-- Negate if the regex captured a leading `-`. -/
def signQ (neg : Bool) (v : ℚ) : ℚ := if neg then -v else v

/-- Direction letter of one coordinate component (`""` when absent). -/
inductive Dir where
  | N | S | E | W | empty
deriving DecidableEq

/-- `d in ("E", "W")`. -/
def isEW : Dir → Bool
  | .E => true
  | .W => true
  | _ => false

/-- `d in ("N", "S")`. -/
def isNS : Dir → Bool
  | .N => true
  | .S => true
  | _ => false

/-- Case-insensitive direction letter recognition (`[NSEWnsew]`, upper-cased). -/
def dirOfChar (c : Char) : Option Dir :=
  if c = 'N' ∨ c = 'n' then some .N
  else if c = 'S' ∨ c = 's' then some .S
  else if c = 'E' ∨ c = 'e' then some .E
  else if c = 'W' ∨ c = 'w' then some .W
  else none

/-- `if direction in ("S", "W"): val = -abs(val)`. -/
def applySW (d : Dir) (v : ℚ) : ℚ :=
  match d with
  | .S => -|v|
  | .W => -|v|
  | _ => v

/-- DMS with symbols: `(-?)(\d{1,3})\s*°\s*(\d{1,2})\s*[MIN]\s*(\d{1,2}(?:\.\d+)?)\s*[SEC]?$`. -/
def fmtDMS (t : List Char) : Option ℚ := do
  let (neg, l1) := matchNeg t
  let (d, l2) ← matchNumNoFrac 3 l1
  let l3 ← expectChar '°' (skipWS l2)
  let (mnt, l4) ← matchNumNoFrac 2 (skipWS l3)
  let l5 ← expectOneOf minMarks (skipWS l4)
  let (sec, l6) ← matchNumFrac 2 (skipWS l5)
  let l7 := optOneOf secMarks (skipWS l6)
  if l7 = [] then some (signQ neg ((d : ℚ) + (mnt : ℚ) / 60 + sec / 3600)) else none

/-- DDM with symbols: `(-?)(\d{1,3})\s*°\s*(\d{1,2}(?:\.\d+)?)\s*[END]?$`. -/
def fmtDDM (t : List Char) : Option ℚ := do
  let (neg, l1) := matchNeg t
  let (d, l2) ← matchNumNoFrac 3 l1
  let l3 ← expectChar '°' (skipWS l2)
  let (mnt, l4) ← matchNumFrac 2 (skipWS l3)
  let l5 := optOneOf endMarks (skipWS l4)
  if l5 = [] then some (signQ neg ((d : ℚ) + mnt / 60)) else none

/-- DMS with spaces: `(-?)(\d{1,3})\s+(\d{1,2})\s+(\d{1,2}(?:\.\d+)?)$`. -/
def fmtSpacedDMS (t : List Char) : Option ℚ := do
  let (neg, l1) := matchNeg t
  let (d, l2) ← matchNumNoFrac 3 l1
  let l3 ← skipWS1 l2
  let (mnt, l4) ← matchNumNoFrac 2 l3
  let l5 ← skipWS1 l4
  let (sec, l6) ← matchNumFrac 2 l5
  if l6 = [] then some (signQ neg ((d : ℚ) + (mnt : ℚ) / 60 + sec / 3600)) else none

/-- Plain decimal: `(-?\d+\.?\d*)\s*°?$`. -/
def fmtDecimal (t : List Char) : Option ℚ :=
  let (neg, l1) := matchNeg t
  let (ds, r) := l1.span Char.isDigit
  if ds.length = 0 then none
  else
    let vr : ℚ × List Char :=
      match r with
      | c :: rr =>
        if c = '.' then
          let (fs, r3) := rr.span Char.isDigit
          ((digitsToNat ds : ℚ) + (digitsToNat fs : ℚ) / 10 ^ fs.length, r3)
        else ((digitsToNat ds : ℚ), r)
      | [] => ((digitsToNat ds : ℚ), [])
    let r4 := optOneOf ['°'] (skipWS vr.2)
    if r4 = [] then some (signQ neg vr.1) else none

/-- Korean full DMS: `(-?)(\d{1,3})\s*도\s*(\d{1,2})\s*분\s*(\d{1,2}(?:\.\d+)?)\s*초?$`. -/
def fmtKorFullDMS (t : List Char) : Option ℚ := do
  let (neg, l1) := matchNeg t
  let (d, l2) ← matchNumNoFrac 3 l1
  let l3 ← expectChar '도' (skipWS l2)
  let (mnt, l4) ← matchNumNoFrac 2 (skipWS l3)
  let l5 ← expectChar '분' (skipWS l4)
  let (sec, l6) ← matchNumFrac 2 (skipWS l5)
  let l7 := optOneOf ['초'] (skipWS l6)
  if l7 = [] then some (signQ neg ((d : ℚ) + (mnt : ℚ) / 60 + sec / 3600)) else none

/-- Korean DDM: `(-?)(\d{1,3})\s*도\s*(\d{1,2}(?:\.\d+)?)\s*분?$`. -/
def fmtKorDDM (t : List Char) : Option ℚ := do
  let (neg, l1) := matchNeg t
  let (d, l2) ← matchNumNoFrac 3 l1
  let l3 ← expectChar '도' (skipWS l2)
  let (mnt, l4) ← matchNumFrac 2 (skipWS l3)
  let l5 := optOneOf ['분'] (skipWS l4)
  if l5 = [] then some (signQ neg ((d : ℚ) + mnt / 60)) else none

/-- Korean degrees only: `(-?)(\d{1,3}(?:\.\d+)?)\s*도$`. -/
def fmtKorDeg (t : List Char) : Option ℚ := do
  let (neg, l1) := matchNeg t
  let (d, l2) ← matchNumFrac 3 l1
  let l3 ← expectChar '도' (skipWS l2)
  if l3 = [] then some (signQ neg d) else none

/-- Embedding of `_parse_korean_dms` (GhCommons.py lines 235-262).  Note the
source returns direction `""` from every Korean branch. -/
def parse_korean_dms (t : List Char) : Option (ℚ × Dir) :=
  match fmtKorFullDMS t with
  | some v => some (v, .empty)
  | none =>
  match fmtKorDDM t with
  | some v => some (v, .empty)
  | none =>
  match fmtKorDeg t with
  | some v => some (v, .empty)
  | none => none

/-- The suffix form of direction extraction: `(.*?)\s*([NSEWnsew])$` on a
stripped component (so there is no trailing newline; `.*?` cannot cross a
newline, hence the `'\n'` guard). -/
def suffixDirSplit (l : List Char) : Dir × List Char :=
  match l.reverse with
  | [] => (.empty, l)
  | c :: restRev =>
    match dirOfChar c with
    | some d =>
      let a := dropTrailingWS restRev.reverse
      if a.any (fun x => x == '\n') then (.empty, l)
      else (d, pyStrip a)
    | none => (.empty, l)

/-- Direction extraction of `_parse_single_coord`: prefix regex
`^([NSEWnsew])\s*(.*)` first (group 2 stops at a newline and is stripped),
else the suffix regex. -/
def extractDirection (l : List Char) : Dir × List Char :=
  match l with
  | c :: rest =>
    match dirOfChar c with
    | some d => (d, pyStrip ((rest.dropWhile pySpace).takeWhile (fun x => x != '\n')))
    | none => suffixDirSplit l
  | [] => (.empty, l)

/-- Embedding of `_parse_single_coord` (GhCommons.py lines 158-224). -/
def parse_single_coord (l0 : List Char) : Option (ℚ × Dir) :=
  let l := pyStrip l0
  let dt := extractDirection l
  let dir := dt.1
  let t := dt.2
  match fmtDMS t with
  | some v => some (applySW dir v, dir)
  | none =>
  match fmtDDM t with
  | some v => some (applySW dir v, dir)
  | none =>
  match fmtSpacedDMS t with
  | some v => some (applySW dir v, dir)
  | none =>
  match fmtDecimal t with
  | some v => some (applySW dir v, dir)
  | none => parse_korean_dms t

/-- Python `text.split(sep, 1)`: split at the first occurrence of `sep`
(fails when `sep` does not occur). -/
def splitFirst (sep : Char) : List Char → Option (List Char × List Char)
  | [] => none
  | c :: rest =>
    if c = sep then some ([], rest)
    else
      match splitFirst sep rest with
      | some (a, b) => some (c :: a, b)
      | none => none

/-- One separator attempt of `_split_coord_text`: split at the first `sep`,
strip both parts, succeed only when both are non-empty. -/
def trySep (sep : Char) (l : List Char) : Option (List Char × List Char) :=
  match splitFirst sep l with
  | some (a, b) =>
    let a' := pyStrip a
    let b' := pyStrip b
    if a' ≠ [] ∧ b' ≠ [] then some (a', b') else none
  | none => none

/-- Greedy `\s+` followed by `(.+)` (`.` never matches a newline): try the
longest whitespace prefix first, backtracking until the next character is not
a newline; returns group 2. -/
def wsDownFrom : ℕ → List Char → Option (List Char)
  | 0, _ => none
  | i + 1, r =>
    match r.drop (i + 1) with
    | c :: _ =>
      if c != '\n' then some ((r.drop (i + 1)).takeWhile (fun x => x != '\n'))
      else wsDownFrom i r
    | [] => wsDownFrom i r

/-- Match `\s+(.+)` at the start of `r`, returning group 2. -/
def matchWsRest (r : List Char) : Option (List Char) :=
  let w := (r.takeWhile pySpace).length
  if w = 0 then none else wsDownFrom w r

/-- Scanner for the split regex `(.+?[NSEWnsew])\s+(.+)`: the accumulator
holds the (reversed) candidate prefix; the lazy `.+?` means the first
direction letter with a valid `\s+(.+)` continuation wins.  A newline aborts
(the dot cannot match it). -/
def dirSplitGo : List Char → List Char → Option (List Char × List Char)
  | acc, c :: rest =>
    if (dirOfChar c).isSome ∧ acc ≠ [] then
      match matchWsRest rest with
      | some g2 => some (acc.reverse ++ [c], g2)
      | none => if c = '\n' then none else dirSplitGo (c :: acc) rest
    else if c = '\n' then none
    else dirSplitGo (c :: acc) rest
  | _, [] => none

/-- Split after a direction letter followed by whitespace. -/
def dirSplit (l : List Char) : Option (List Char × List Char) := dirSplitGo [] l

/-- Python `str.split()` (split on whitespace runs, no empty parts). -/
def pyWordsAux : List Char → List Char → List (List Char)
  | cur, [] => if cur = [] then [] else [cur.reverse]
  | cur, c :: rest =>
    if pySpace c then
      if cur = [] then pyWordsAux [] rest else cur.reverse :: pyWordsAux [] rest
    else pyWordsAux (c :: cur) rest

/-- Python `str.split()`. -/
def pyWords (l : List Char) : List (List Char) := pyWordsAux [] l

/-- Embedding of `_split_coord_text` (GhCommons.py lines 130-155): comma,
semicolon, direction-letter boundary, tab, then exactly two whitespace
separated tokens. -/
def split_coord_text (l : List Char) : Option (List Char × List Char) :=
  match trySep ',' l with
  | some p => some p
  | none =>
  match trySep ';' l with
  | some p => some p
  | none =>
  match dirSplit l with
  | some p => some p
  | none =>
  match trySep '\t' l with
  | some p => some p
  | none =>
  match pyWords l with
  | [a, b] => some (a, b)
  | _ => none

/-- Embedding of `parse_coordinates` (GhCommons.py lines 91-127). -/
def parse_coordinates (l : List Char) : Option (ℚ × ℚ) :=
  let t := pyStrip l
  if t = [] then none
  else
    match split_coord_text t with
    | none => none
    | some (p1, p2) =>
      match parse_single_coord (pyStrip p1), parse_single_coord (pyStrip p2) with
      | some (v1, d1), some (v2, d2) =>
        if isEW d1 && !isEW d2 then some (v2, v1)
        else if isNS d2 && !isNS d1 then some (v2, v1)
        else some (v1, v2)
      | _, _ => none

/-! ## Coordinate scanning (GhCommons.scan_coordinates_in_text)

The compiled regex layer (`_COORD_PATTERNS` and `finditer`) is abstracted: a
scan is run on the list of capture-group records of all matches, ordered as
the source produces them (pattern priority first, then left-to-right text
position).  The numeric groups are modelled by the numbers the digit groups
denote.  Everything downstream of the regex layer — per-pattern conversion
(lines 348-405), range validation (lines 407-414) and deduplication
(`_deduplicate_coords`, lines 419-430) — is translated from the source. -/

/-- Korean direction words matched by the scanner's first pattern. -/
inductive KorDir where
  | bukwi | namwi | donggyeong | seogyeong
deriving DecidableEq

/-- `_KOREAN_DIRECTIONS` lookup, restricted to the words pattern 1 can match. -/
def korDirToDir : KorDir → Dir
  | .bukwi => .N
  | .namwi => .S
  | .donggyeong => .E
  | .seogyeong => .W

/-- An upper-cased `[NSns]` capture. -/
inductive NSLetter where
  | N | S
deriving DecidableEq

/-- An upper-cased `[EWew]` capture. -/
inductive EWLetter where
  | E | W
deriving DecidableEq

/-- The capture groups of one regex match, one constructor per pattern of
`_COORD_PATTERNS` (in priority order), plus the matched text `m.group(0)`. -/
inductive ScanGroups where
  | kor1 (dir1 : KorDir) (deg1 : ℕ) (min1 : Option ℕ) (sec1 : Option ℚ)
      (dir2 : KorDir) (deg2 : ℕ) (min2 : Option ℕ) (sec2 : Option ℚ)
      (matched : String)
  | kor2 (deg1 min1 : ℕ) (sec1 : ℚ) (deg2 min2 : ℕ) (sec2 : ℚ) (matched : String)
  | dms (deg1 min1 : ℕ) (sec1 : ℚ) (ns : NSLetter)
      (deg2 min2 : ℕ) (sec2 : ℚ) (ew : EWLetter) (matched : String)
  | ddm (deg1 : ℕ) (min1 : ℚ) (ns : NSLetter)
      (deg2 : ℕ) (min2 : ℚ) (ew : EWLetter) (matched : String)
  | decdir (v1 : ℚ) (ns : NSLetter) (v2 : ℚ) (ew : EWLetter) (matched : String)
  | dec (v1 v2 : ℚ) (matched : String)
deriving DecidableEq

/-- Embedding of `_korean_dms_to_decimal` (GhCommons.py lines 328-335). -/
def korean_dms_to_decimal (deg : ℕ) (minutes : Option ℕ) (seconds : Option ℚ) : ℚ :=
  (deg : ℚ) + (match minutes with | some m => (m : ℚ) / 60 | none => 0)
    + (match seconds with | some s => s / 3600 | none => 0)

/-- The matched text of one scan match. -/
def matchedText : ScanGroups → String
  | .kor1 _ _ _ _ _ _ _ _ m => m
  | .kor2 _ _ _ _ _ _ m => m
  | .dms _ _ _ _ _ _ _ _ m => m
  | .ddm _ _ _ _ _ _ m => m
  | .decdir _ _ _ _ m => m
  | .dec _ _ m => m

/-- Is this a match of the plain-decimal pattern (index 5)? -/
def isPlainDec : ScanGroups → Bool
  | .dec _ _ _ => true
  | _ => false

/-- The per-pattern conversion of one match to `(lat, lng)`
(GhCommons.py lines 351-405). -/
def convertGroups : ScanGroups → ℚ × ℚ
  | .kor1 dir1 deg1 min1 sec1 dir2 deg2 min2 sec2 _ =>
    let d1 := korDirToDir dir1
    let d2 := korDirToDir dir2
    let v1 := korean_dms_to_decimal deg1 min1 sec1
    let v2 := korean_dms_to_decimal deg2 min2 sec2
    let v1 := if d1 = .S ∨ d1 = .W then -v1 else v1
    let v2 := if d2 = .S ∨ d2 = .W then -v2 else v2
    if (d1 = .N ∨ d1 = .S) ∧ (d2 = .E ∨ d2 = .W) then (v1, v2)
    else if (d1 = .E ∨ d1 = .W) ∧ (d2 = .N ∨ d2 = .S) then (v2, v1)
    else (v1, v2)
  | .kor2 deg1 min1 sec1 deg2 min2 sec2 _ =>
    (korean_dms_to_decimal deg1 (some min1) (some sec1),
      korean_dms_to_decimal deg2 (some min2) (some sec2))
  | .dms deg1 min1 sec1 ns deg2 min2 sec2 ew _ =>
    let v1 := (deg1 : ℚ) + (min1 : ℚ) / 60 + sec1 / 3600
    let v2 := (deg2 : ℚ) + (min2 : ℚ) / 60 + sec2 / 3600
    (if ns = .S then -v1 else v1, if ew = .W then -v2 else v2)
  | .ddm deg1 min1 ns deg2 min2 ew _ =>
    let v1 := (deg1 : ℚ) + min1 / 60
    let v2 := (deg2 : ℚ) + min2 / 60
    (if ns = .S then -v1 else v1, if ew = .W then -v2 else v2)
  | .decdir v1 ns v2 ew _ =>
    (if ns = .S then -v1 else v1, if ew = .W then -v2 else v2)
  | .dec v1 v2 _ => (v1, v2)

/-- Range validation of one converted match (GhCommons.py lines 407-414):
plain decimal pairs are restricted to the Korea bounding box
(`KOREA_LAT_RANGE = (33.0, 43.5)`, `KOREA_LNG_RANGE = (124.0, 132.0)`);
all other patterns to `|lat| ≤ 90`, `|lng| ≤ 180`. -/
def validateMatch (g : ScanGroups) : Option (ℚ × ℚ × String) :=
  let c := convertGroups g
  if isPlainDec g then
    if 33 ≤ c.1 ∧ c.1 ≤ 43.5 ∧ 124 ≤ c.2 ∧ c.2 ≤ 132 then
      some (c.1, c.2, matchedText g)
    else none
  else
    if -90 ≤ c.1 ∧ c.1 ≤ 90 ∧ -180 ≤ c.2 ∧ c.2 ≤ 180 then
      some (c.1, c.2, matchedText g)
    else none

/-- `abs(lat - ulat) < tolerance and abs(lng - ulng) < tolerance` with the
default tolerance 0.001. -/
def isDupCoord (x u : ℚ × ℚ × String) : Bool :=
  decide (|x.1 - u.1| < 1/1000 ∧ |x.2.1 - u.2.1| < 1/1000)

/-- The accumulator loop of `_deduplicate_coords`: `unique` is the list built
so far; a new entry is appended only if it is not a near-duplicate of any
kept entry. -/
def dedupAux (unique : List (ℚ × ℚ × String)) :
    List (ℚ × ℚ × String) → List (ℚ × ℚ × String)
  | [] => unique
  | x :: rest =>
    if unique.any (fun u => isDupCoord x u) then dedupAux unique rest
    else dedupAux (unique ++ [x]) rest

/-- Embedding of `_deduplicate_coords` (GhCommons.py lines 419-430). -/
def deduplicate_coords (l : List (ℚ × ℚ × String)) : List (ℚ × ℚ × String) :=
  dedupAux [] l

/-- Embedding of `scan_coordinates_in_text` (GhCommons.py lines 338-416) on
an abstract match stream: convert each match, keep it only if it passes
range validation, then deduplicate. -/
def scan_coordinates_in_text (stream : List ScanGroups) : List (ℚ × ℚ × String) :=
  deduplicate_coords (stream.filterMap validateMatch)

/-- A probe input, the DMS pair `37°99'59"N 126°58'41"E` with out-of-range
minutes (built character by character to keep quote marks out of string
literals). -/
def dmsOverflowInput : List Char :=
  ['3', '7', '°', '9', '9', Char.ofNat 39, '5', '9', Char.ofNat 34, 'N', ' ',
   '1', '2', '6', '°', '5', '8', Char.ofNat 39, '4', '1', Char.ofNat 34, 'E']

/-! ## Land cover classification (GhLandCover.classify_landcover)

The raster is modelled as a flat list of pixels.  A pixel carries its BGR
channels together with the HSV values OpenCV computed for it (the
`cv2.cvtColor` BGR→HSV integer conversion is abstracted; every claim below
is independent of the conversion).  All float arithmetic is exact `ℚ`;
Python's `round` (banker's rounding) is `pyRound` and `int()` on the
non-negative redistribution quotients is integer division. -/

/-- One pixel: OpenCV hue (0-179), saturation and value (0-255), and the
blue/green/red channels (0-255). -/
structure Pixel where
  h : ℕ
  s : ℕ
  v : ℕ
  b : ℕ
  g : ℕ
  r : ℕ
deriving DecidableEq

/-- `s_pct = s * 100.0 / 255.0`. -/
def sPct (p : Pixel) : ℚ := (p.s : ℚ) * 100 / 255

/-- `v_pct = v * 100.0 / 255.0`. -/
def vPct (p : Pixel) : ℚ := (p.v : ℚ) * 100 / 255

/-- `channel_sum` with the zero guard (`channel_sum[channel_sum == 0] = 1`). -/
def channelSum (p : Pixel) : ℚ :=
  if p.b + p.g + p.r = 0 then 1 else ((p.b + p.g + p.r : ℕ) : ℚ)

/-- Excess green index `exg = 2*g_norm - r_norm - b_norm`. -/
def exg (p : Pixel) : ℚ :=
  2 * ((p.g : ℚ) / channelSum p) - (p.r : ℚ) / channelSum p -
    (p.b : ℚ) / channelSum p

/-- `water`: `H in [90,130], S% > 30, V% < 60` (GhLandCover.py line 91). -/
def water (p : Pixel) : Bool :=
  decide (90 ≤ p.h ∧ p.h ≤ 130 ∧ 30 < sPct p ∧ vPct p < 60)

/-- `dense_veg`: `H in [35,85], S% > 40, V% > 30, exg > 0.05` (line 94). -/
def dense_veg (p : Pixel) : Bool :=
  decide (35 ≤ p.h ∧ p.h ≤ 85 ∧ 40 < sPct p ∧ 30 < vPct p ∧ 1/20 < exg p)

/-- `sparse_veg`: color band or moderate-ExG band, excluding dense and water
(lines 97-99). -/
def sparse_veg (p : Pixel) : Bool :=
  (decide (35 ≤ p.h ∧ p.h ≤ 85 ∧ 20 ≤ sPct p ∧ sPct p ≤ 40) ||
    decide (0 < exg p ∧ exg p ≤ 1/20 ∧ 25 ≤ p.h ∧ p.h ≤ 90)) &&
  !dense_veg p && !water p

/-- `bare`: `H in [10,30], S% in [20,60]` excluding the classes above
(line 102). -/
def bare (p : Pixel) : Bool :=
  decide (10 ≤ p.h ∧ p.h ≤ 30 ∧ 20 ≤ sPct p ∧ sPct p ≤ 60) &&
  !water p && !dense_veg p && !sparse_veg p

/-- `built`: low saturation, excluding all classes above (line 105). -/
def built (p : Pixel) : Bool :=
  decide (sPct p < 20) && !water p && !dense_veg p && !sparse_veg p && !bare p

/-- Count of pixels of one class inside the (optional) mask:
`(pred & mask).sum()` or `pred.sum()`. -/
def classCount (pred : Pixel → Bool) (img : List Pixel)
    (mask : Option (List Bool)) : ℕ :=
  match mask with
  | none => img.countP pred
  | some m => (img.zip m).countP fun pm => pred pm.1 && pm.2

/-- The region size: `mask.sum()` when a mask is supplied, else the number
of pixels. -/
def regionTotal (img : List Pixel) (mask : Option (List Bool)) : ℕ :=
  match mask with
  | none => img.length
  | some m => m.count true

/-- The classification result: an integer percentage per class. -/
structure LandCoverResult where
  dense_veg : ℤ
  sparse_veg : ℤ
  bare : ℤ
  built : ℤ
  water : ℤ
deriving DecidableEq

/-- Sum of the five percentages of a result. -/
def resultSum (res : LandCoverResult) : ℤ :=
  res.dense_veg + res.sparse_veg + res.bare + res.built + res.water

/-- Python `round` (round half to even) on an exact rational. -/
def pyRound (q : ℚ) : ℤ :=
  if q - ⌊q⌋ < 1/2 then ⌊q⌋
  else if 1/2 < q - ⌊q⌋ then ⌊q⌋ + 1
  else if ⌊q⌋ % 2 = 0 then ⌊q⌋ else ⌊q⌋ + 1

/-- `round(val * 100 / total_final)`. -/
def pctRound (val tf : ℤ) : ℤ := pyRound ((val : ℚ) * 100 / (tf : ℚ))

/-- One step of the proportional redistribution loop:
`counts[key] += int(unclassified * counts[key] / classified)` — Python's
`int()` truncates toward zero, i.e. `Int.tdiv`. -/
def redistribute (u : ℤ) (classified : ℕ) (c : ℕ) : ℤ :=
  (c : ℤ) + Int.tdiv (u * (c : ℤ)) (classified : ℤ)

/-- `result[max(result, key=result.get)] += diff`: add `diff` to the first
class (in the dict order water, dense_veg, sparse_veg, bare, built) whose
percentage is maximal. -/
def adjustLargest (xw xdv xsv xba xbu diff : ℤ) : LandCoverResult :=
  if xw = max xw (max xdv (max xsv (max xba xbu))) then
    ⟨xdv, xsv, xba, xbu, xw + diff⟩
  else if xdv = max xw (max xdv (max xsv (max xba xbu))) then
    ⟨xdv + diff, xsv, xba, xbu, xw⟩
  else if xsv = max xw (max xdv (max xsv (max xba xbu))) then
    ⟨xdv, xsv + diff, xba, xbu, xw⟩
  else if xba = max xw (max xdv (max xsv (max xba xbu))) then
    ⟨xdv, xsv, xba + diff, xbu, xw⟩
  else ⟨xdv, xsv, xba, xbu + diff, xw⟩

/-- Lines 130-138: distribute unclassified pixels proportionally, or assign
everything to `bare` when nothing was classified. -/
def finalizeCounts (w dv sv ba bu total : ℕ) : ℤ × ℤ × ℤ × ℤ × ℤ :=
  let classified := w + dv + sv + ba + bu
  if 0 < classified then
    let u : ℤ := (total : ℤ) - (classified : ℤ)
    (redistribute u classified w, redistribute u classified dv,
      redistribute u classified sv, redistribute u classified ba,
      redistribute u classified bu)
  else ((w : ℤ), (dv : ℤ), (sv : ℤ), (total : ℤ), (bu : ℤ))

/-- Lines 140-152: convert counts to rounded percentages and force the sum
to exactly 100 by adjusting the largest class. -/
def finalizePercent (cw cdv csv cba cbu : ℤ) : LandCoverResult :=
  let tf0 := cw + cdv + csv + cba + cbu
  let tf := if tf0 = 0 then 1 else tf0
  let xw := pctRound cw tf
  let xdv := pctRound cdv tf
  let xsv := pctRound csv tf
  let xba := pctRound cba tf
  let xbu := pctRound cbu tf
  let diff := 100 - (xw + xdv + xsv + xba + xbu)
  if diff = 0 then ⟨xdv, xsv, xba, xbu, xw⟩
  else adjustLargest xw xdv xsv xba xbu diff

/-- Lines 130-152 combined. -/
def finalize (w dv sv ba bu total : ℕ) : LandCoverResult :=
  match finalizeCounts w dv sv ba bu total with
  | (cw, cdv, csv, cba, cbu) => finalizePercent cw cdv csv cba cbu

/-- Embedding of `classify_landcover` (GhLandCover.py lines 55-153). -/
def classify_landcover (img : List Pixel) (mask : Option (List Bool)) :
    LandCoverResult :=
  let total := regionTotal img mask
  if total = 0 then ⟨0, 0, 0, 0, 0⟩
  else
    finalize (classCount water img mask) (classCount dense_veg img mask)
      (classCount sparse_veg img mask) (classCount bare img mask)
      (classCount built img mask) total

/-! ## Wayback summer capture search (GhCommons.fetch_wayback_summer_by_capture)

The HTTP layer is abstracted: each visited catalog entry's point query is
represented by a pre-supplied response (`WbResp`), consumed positionally.
`time.gmtime` is modelled by the proleptic-Gregorian civil calendar on the
floored UNIX timestamp (Python floor-rounds the float before conversion);
`time.time()` is the parameter `now`.  `5 * 365.25 * 86400 = 157788000`
exactly.  Everything else — duplicate-date skipping, the 5-year recency
window, the immediate June/July/August return, closest-to-July-1 tracking
and the two fallbacks — is translated from source lines 572-653. -/

/-- Civil date `(year, month, day)` from days since the UNIX epoch
(proleptic Gregorian, as `time.gmtime` computes it). -/
def civilFromDays (days : ℤ) : ℤ × ℤ × ℤ :=
  let z := days + 719468
  let era := Int.fdiv z 146097
  let doe := z - era * 146097
  let yoe := Int.fdiv
    (doe - Int.fdiv doe 1460 + Int.fdiv doe 36524 - Int.fdiv doe 146096) 365
  let doy := doe - (365 * yoe + Int.fdiv yoe 4 - Int.fdiv yoe 100)
  let mp := Int.fdiv (5 * doy + 2) 153
  let d := doy - Int.fdiv (153 * mp + 2) 5 + 1
  let m := if mp < 10 then mp + 3 else mp - 9
  let y := yoe + era * 400 + (if m ≤ 2 then 1 else 0)
  (y, m, d)

/-- Days since the UNIX epoch of a civil date. -/
def daysFromCivil (y m d : ℤ) : ℤ :=
  let y' := if m ≤ 2 then y - 1 else y
  let era := Int.fdiv y' 400
  let yoe := y' - era * 400
  let mp := if 2 < m then m - 3 else m + 9
  let doy := Int.fdiv (153 * mp + 2) 5 + d - 1
  let doe := yoe * 365 + Int.fdiv yoe 4 - Int.fdiv yoe 100 + doy
  era * 146097 + doe - 719468

/-- `time.gmtime(secs).tm_mon`. -/
def gmMonth (secs : ℤ) : ℤ := (civilFromDays (Int.fdiv secs 86400)).2.1

/-- `time.gmtime(secs).tm_yday` (1-based day of year). -/
def gmYday (secs : ℤ) : ℤ :=
  let days := Int.fdiv secs 86400
  days - daysFromCivil (civilFromDays days).1 1 1 + 1

/-- One catalog version: `(date_str, release_num, metadata_url)`. -/
structure WbEntry where
  date : String
  release : ℕ
  url : String
deriving DecidableEq

/-- The outcome of one per-entry point query: an exception, an empty
`features` list, a missing/None `SRC_DATE2`, or a source date in epoch
milliseconds (`src 0` behaves like a falsy value, as in the source). -/
inductive WbResp where
  | fail
  | noFeature
  | noSrc
  | src (v : ℤ)
deriving DecidableEq

/-- The visiting loop of `fetch_wayback_summer_by_capture` (lines 602-641):
walks the (entry, response) list, skipping failures, duplicate dates and
stale dates, returning immediately on a June/July/August capture, otherwise
tracking the entry closest to July 1st (day 182).  Returns the immediate
result (if any) and the final `best` state. -/
def wbLoop (now : ℚ) :
    List (WbEntry × WbResp) → List ℤ → Option (ℤ × WbEntry) →
      Option WbEntry × Option (ℤ × WbEntry)
  | [], _, best => (none, best)
  | (e, resp) :: rest, seen, best =>
    match resp with
    | .src v =>
      if v = 0 then wbLoop now rest seen best
      else if v ∈ seen then wbLoop now rest seen best
      else
        let seen' := v :: seen
        if (v : ℚ) / 1000 < now - 157788000 then wbLoop now rest seen' best
        else
          let secs := Int.fdiv v 1000
          if gmMonth secs = 6 ∨ gmMonth secs = 7 ∨ gmMonth secs = 8 then
            (some e, best)
          else
            let dist := |gmYday secs - 182|
            let best' :=
              match best with
              | none => some (dist, e)
              | some b => if dist < b.1 then some (dist, e) else some b
            wbLoop now rest seen' best'
    | _ => wbLoop now rest seen best

/-- Python string comparison (by code points). -/
def lexLtChars : List Char → List Char → Bool
  | [], [] => false
  | [], _ :: _ => true
  | _ :: _, [] => false
  | a :: as, b :: bs =>
    if a.toNat < b.toNat then true
    else if b.toNat < a.toNat then false
    else lexLtChars as bs

/-- Lexicographic order on `(date_str, release_num, metadata_url)` tuples,
as Python compares them when sorting `versions`. -/
def wbEntryLt (a b : WbEntry) : Bool :=
  lexLtChars a.date.data b.date.data ||
  (a.date == b.date && (Nat.blt a.release b.release ||
    (a.release == b.release && lexLtChars a.url.data b.url.data)))

/-- Stable descending insertion (models `versions.sort(reverse=True)`). -/
def insertDescWb (x : WbEntry) : List WbEntry → List WbEntry
  | [] => [x]
  | y :: ys => if wbEntryLt x y then y :: insertDescWb x ys else x :: y :: ys

/-- Stable descending sort. -/
def sortDescWb : List WbEntry → List WbEntry
  | [] => []
  | x :: xs => insertDescWb x (sortDescWb xs)

/-- Embedding of `fetch_wayback_summer_by_capture` (GhCommons.py lines
572-653).  `config` entries are `(release_num, optional date parsed from the
item title, metadata_url)`; entries without a date or with an empty URL are
discarded; the rest are sorted newest first, up to `maxTries` of them are
visited with the supplied responses, and the loop result falls back to the
best (closest to July 1st) entry, then to the newest version, then absent. -/
def fetch_wayback_summer_by_capture (now : ℚ)
    (config : List (ℕ × Option String × String)) (resps : List WbResp)
    (maxTries : ℕ) : Option WbEntry :=
  let versions := sortDescWb (config.filterMap fun c =>
    match c.2.1 with
    | some d => if c.2.2 = "" then none else some ⟨d, c.1, c.2.2⟩
    | none => none)
  let tries := min versions.length maxTries
  match wbLoop now ((versions.take tries).zip resps) [] none with
  | (some e, _) => some e
  | (none, some b) => some b.2
  | (none, none) => versions.head?

end GhEval

namespace GhEval

/-! ## Theorems for claim C2 -/

/-- C2: `road_distance_to_score` maps `>1000` to 1, `(500,1000]` to 2,
`(200,500]` to 3, `(50,200]` to 4 and `≤50` to 5, always lands in `[1,5]`,
is monotonically non-increasing in the distance, and in particular sends
1000 to 2, 500 to 3, and 200 to 4. -/
theorem road_distance_to_score_c2 :
    (∀ d : ℚ,
      (1000 < d → road_distance_to_score d = 1) ∧
      (500 < d ∧ d ≤ 1000 → road_distance_to_score d = 2) ∧
      (200 < d ∧ d ≤ 500 → road_distance_to_score d = 3) ∧
      (50 < d ∧ d ≤ 200 → road_distance_to_score d = 4) ∧
      (d ≤ 50 → road_distance_to_score d = 5) ∧
      1 ≤ road_distance_to_score d ∧ road_distance_to_score d ≤ 5) ∧
    (∀ d e : ℚ, d ≤ e → road_distance_to_score e ≤ road_distance_to_score d) ∧
    road_distance_to_score 1000 = 2 ∧
    road_distance_to_score 500 = 3 ∧
    road_distance_to_score 200 = 4 := by
  refine ⟨fun d => ?_, fun d e hde => ?_, by norm_num [road_distance_to_score],
    by norm_num [road_distance_to_score], by norm_num [road_distance_to_score]⟩
  · unfold road_distance_to_score
    refine ⟨fun h => ?_, fun h => ?_, fun h => ?_, fun h => ?_, fun h => ?_, ?_⟩
    · rw [if_pos (by linarith)]
    · rw [if_neg (by push_neg; linarith), if_pos (by linarith)]
    · rw [if_neg (by push_neg; linarith), if_neg (by push_neg; linarith),
        if_pos (by linarith)]
    · rw [if_neg (by push_neg; linarith), if_neg (by push_neg; linarith),
        if_neg (by push_neg; linarith), if_pos (by linarith)]
    · rw [if_neg (by push_neg; linarith), if_neg (by push_neg; linarith),
        if_neg (by push_neg; linarith), if_neg (by push_neg; linarith)]
    · split_ifs <;> omega
  · unfold road_distance_to_score
    split_ifs <;> first | omega | linarith

/-- C2 witness: the score of 1500 m is 1, by the first bullet of the theorem. -/
theorem road_distance_to_score_c2_witness : road_distance_to_score 1500 = 1 :=
  ((road_distance_to_score_c2.1 1500).1 (by norm_num))

/-! ## Theorems for claim C7 -/

/-- C7: the squared distance returned by `closest_point_on_segment` is
non-negative; in the degenerate case `a_local = b_local` the result is the
point `a` with squared distance `|a_local|²`; and whenever the query point's
local image (the origin) lies exactly on the segment, i.e.
`a_local + s·(b_local - a_local) = 0` for some `s ∈ [0,1]`, the function
returns the point `p` itself with squared distance 0 (so distance 0).
`cosLat ≠ 0` reflects `|plat| < 90`. -/
theorem closest_point_on_segment_c7
    (cosLat plat plng alat alng blat blng : ℚ) (hcos : cosLat ≠ 0) :
    0 ≤ (closest_point_on_segment cosLat plat plng alat alng blat blng).2.2 ∧
    (locX cosLat plng alng = locX cosLat plng blng ∧
      locY plat alat = locY plat blat →
      closest_point_on_segment cosLat plat plng alat alng blat blng =
        (alat, alng,
          locX cosLat plng alng * locX cosLat plng alng +
            locY plat alat * locY plat alat)) ∧
    (∀ s : ℚ, 0 ≤ s → s ≤ 1 →
      locX cosLat plng alng +
        s * (locX cosLat plng blng - locX cosLat plng alng) = 0 →
      locY plat alat + s * (locY plat blat - locY plat alat) = 0 →
      closest_point_on_segment cosLat plat plng alat alng blat blng =
        (plat, plng, 0)) := by
  set ax := locX cosLat plng alng with hax
  set ay := locY plat alat with hay
  set bx := locX cosLat plng blng with hbx
  set byy := locY plat blat with hbyy
  refine ⟨?_, ?_, ?_⟩
  · unfold closest_point_on_segment
    rw [← hax, ← hay, ← hbx, ← hbyy]
    dsimp only
    split_ifs <;> dsimp only <;>
      exact add_nonneg (mul_self_nonneg _) (mul_self_nonneg _)
  · rintro ⟨h1, h2⟩
    unfold closest_point_on_segment
    rw [← hax, ← hay, ← hbx, ← hbyy]
    dsimp only
    rw [if_pos (by rw [← h1, ← h2]; ring)]
  · intro s hs0 hs1 hX hY
    unfold closest_point_on_segment
    rw [← hax, ← hay, ← hbx, ← hbyy]
    dsimp only
    by_cases hseg : (bx - ax) * (bx - ax) + (byy - ay) * (byy - ay) = 0
    · -- degenerate segment: then a_local must itself be the origin
      have hx0 : bx - ax = 0 := by nlinarith [sq_nonneg (bx - ax), sq_nonneg (byy - ay)]
      have hy0 : byy - ay = 0 := by nlinarith [sq_nonneg (bx - ax), sq_nonneg (byy - ay)]
      have hax0 : ax = 0 := by rw [hx0, mul_zero, add_zero] at hX; exact hX
      have hay0 : ay = 0 := by rw [hy0, mul_zero, add_zero] at hY; exact hY
      have halat : alat = plat := by
        have := hay0
        rw [hay, locY] at this
        rcases mul_eq_zero.mp this with h | h
        · linarith [sub_eq_zero.mp h]
        · norm_num at h
      have halng : alng = plng := by
        have := hax0
        rw [hax, locX] at this
        rcases mul_eq_zero.mp this with h | h
        · linarith [sub_eq_zero.mp h]
        · rcases mul_eq_zero.mp h with h' | h'
          · norm_num at h'
          · exact absurd h' hcos
      rw [if_pos hseg, hax0, hay0, halat, halng]
      norm_num
    · rw [if_neg hseg]
      have hdot : -ax * (bx - ax) - ay * (byy - ay) =
          s * ((bx - ax) * (bx - ax) + (byy - ay) * (byy - ay)) := by
        linear_combination (-(bx - ax)) * hX + (-(byy - ay)) * hY
      have ht : (-ax * (bx - ax) - ay * (byy - ay)) /
          ((bx - ax) * (bx - ax) + (byy - ay) * (byy - ay)) = s := by
        rw [hdot, mul_div_assoc, div_self hseg, mul_one]
      rw [ht, min_eq_right hs1, max_eq_right hs0, hX, hY]
      norm_num

/-- C7 witness: with `cosLat = 1`, `p = (0,0)` lying at the midpoint of the
segment from `a = (1,0)` to `b = (-1,0)`, the function returns `p` itself
with squared distance 0. -/
theorem closest_point_on_segment_c7_witness :
    closest_point_on_segment 1 0 0 1 0 (-1) 0 = (0, 0, 0) :=
  (closest_point_on_segment_c7 1 0 0 1 0 (-1) 0 (by norm_num)).2.2
    (1/2) (by norm_num) (by norm_num) (by norm_num [locX])
    (by norm_num [locY])

/-! ## Deduplication lemmas (shared helpers) -/

/-- Every element of the deduplicated list comes from the accumulator or the
input. -/
theorem mem_dedupAux :
    ∀ (l u : List (ℚ × ℚ × String)) (x : ℚ × ℚ × String),
      x ∈ dedupAux u l → x ∈ u ∨ x ∈ l := by
  intro l
  induction l with
  | nil => intro u x hx; exact Or.inl (by simpa [dedupAux] using hx)
  | cons y rest ih =>
    intro u x hx
    simp only [dedupAux] at hx
    by_cases hc : (u.any fun z => isDupCoord y z) = true
    · rw [if_pos hc] at hx
      rcases ih u x hx with h | h
      · exact Or.inl h
      · exact Or.inr (List.mem_cons_of_mem _ h)
    · rw [if_neg hc] at hx
      rcases ih (u ++ [y]) x hx with h | h
      · rcases List.mem_append.mp h with h' | h'
        · exact Or.inl h'
        · exact Or.inr (by simp at h'; simp [h'])
      · exact Or.inr (List.mem_cons_of_mem _ h)

/-- The accumulator loop preserves the pairwise no-near-duplicate property:
no later element of the result is within tolerance of an earlier one. -/
theorem pairwise_dedupAux :
    ∀ (l u : List (ℚ × ℚ × String)),
      u.Pairwise (fun e x => isDupCoord x e = false) →
      (dedupAux u l).Pairwise (fun e x => isDupCoord x e = false) := by
  intro l
  induction l with
  | nil => intro u hu; simpa [dedupAux] using hu
  | cons y rest ih =>
    intro u hu
    simp only [dedupAux]
    by_cases hc : (u.any fun z => isDupCoord y z) = true
    · rw [if_pos hc]; exact ih u hu
    · rw [if_neg hc]
      apply ih
      rw [List.pairwise_append]
      refine ⟨hu, List.pairwise_singleton _ _, ?_⟩
      intro a ha b hb
      simp only [List.mem_singleton] at hb
      subst hb
      simp only [List.any_eq_true, not_exists, not_and,
        Bool.not_eq_true] at hc
      exact hc a ha

/-! ## Theorems for claim C3 -/

/-- C3 counterexample: `parse_coordinates` performs no range validation, so
`"999.123, 888.456"` parses to a coordinate whose latitude 999.123 is far
outside `[-90, 90]` — the claimed invariant fails for `parse_coordinates`. -/
theorem parse_coordinates_c3_counterexample :
    parse_coordinates ("999.123, 888.456".data) = some (999.123, 888.456) ∧
      ¬((999.123 : ℚ) ≤ 90) := by
  constructor
  · decide
  · norm_num

/-- C3 (amended): every match returned by `scan_coordinates_in_text` has
latitude in `[-90, 90]` and longitude in `[-180, 180]` (the scanner
validates every pattern's result; plain decimal pairs against the even
tighter Korea box); `parse_coordinates`, by contrast, performs no range
validation at all. -/
theorem scan_coordinates_in_text_c3 :
    ∀ (stream : List ScanGroups) (m : ℚ × ℚ × String),
      m ∈ scan_coordinates_in_text stream →
      -90 ≤ m.1 ∧ m.1 ≤ 90 ∧ -180 ≤ m.2.1 ∧ m.2.1 ≤ 180 := by
  intro stream m hm
  rcases mem_dedupAux _ [] m hm with h | h
  · simp at h
  · rcases List.mem_filterMap.mp h with ⟨g, _, hg⟩
    unfold validateMatch at hg
    by_cases hp : isPlainDec g = true
    · rw [if_pos hp] at hg
      split_ifs at hg with hrange
      · obtain ⟨h1, h2, h3, h4⟩ := hrange
        cases hg
        refine ⟨by linarith, by linarith, by linarith, by linarith⟩
    · rw [if_neg hp] at hg
      split_ifs at hg with hrange
      · obtain ⟨h1, h2, h3, h4⟩ := hrange
        cases hg
        exact ⟨h1, h2, h3, h4⟩

/-- C3 witness: a valid plain-decimal Seoul coordinate survives scanning and
is inside the claimed ranges. -/
theorem scan_coordinates_in_text_c3_witness :
    -90 ≤ (37.5665 : ℚ) ∧ (37.5665 : ℚ) ≤ 90 ∧
      -180 ≤ (126.978 : ℚ) ∧ (126.978 : ℚ) ≤ 180 :=
  scan_coordinates_in_text_c3 [.dec 37.5665 126.978 "37.5665, 126.9780"]
    (37.5665, 126.978, "37.5665, 126.9780") (by decide)

/-! ## Theorems for claim C4 -/

/-- C4: the scanner's output never contains a later match whose latitude and
longitude are both within 0.001° of an earlier kept match (first occurrence
wins); in particular, a stream with the two plain-decimal matches produced
by `"site at 37.5665, 126.9780 and again 37.56651, 126.97801"` yields
exactly the one (first) match. -/
theorem scan_coordinates_dedup_c4 :
    (∀ stream : List ScanGroups,
      (scan_coordinates_in_text stream).Pairwise
        (fun e x => isDupCoord x e = false)) ∧
    scan_coordinates_in_text
        [.dec 37.5665 126.9780 "37.5665, 126.9780",
         .dec 37.56651 126.97801 "37.56651, 126.97801"] =
      [(37.5665, 126.9780, "37.5665, 126.9780")] := by
  constructor
  · intro stream
    exact pairwise_dedupAux _ [] (List.Pairwise.nil)
  · decide

/-! ## Theorems for claim C5 -/

/-- C5: whenever both split components parse to `(value, direction)` pairs,
`parse_coordinates` swaps the order exactly when the first direction is E/W
and the second is not, or the second is N/S and the first is not; otherwise
the positional order is kept.  In particular
`"126.9780E 37.5665N"` parses to `(37.5665, 126.9780)`. -/
theorem parse_coordinates_c5 :
    (∀ (s p1 p2 : List Char) (v1 v2 : ℚ) (d1 d2 : Dir),
      split_coord_text (pyStrip s) = some (p1, p2) →
      parse_single_coord (pyStrip p1) = some (v1, d1) →
      parse_single_coord (pyStrip p2) = some (v2, d2) →
      ((isEW d1 = true ∧ isEW d2 = false) ∨ (isNS d2 = true ∧ isNS d1 = false) →
        parse_coordinates s = some (v2, v1)) ∧
      (¬((isEW d1 = true ∧ isEW d2 = false) ∨ (isNS d2 = true ∧ isNS d1 = false)) →
        parse_coordinates s = some (v1, v2))) ∧
    parse_coordinates ("126.9780E 37.5665N".data) = some (37.5665, 126.9780) := by
  constructor
  · intro s p1 p2 v1 v2 d1 d2 hsplit h1 h2
    have h0 : pyStrip s ≠ [] := by
      intro h
      rw [h] at hsplit
      have : split_coord_text ([] : List Char) = none := by decide
      rw [this] at hsplit
      exact Option.noConfusion hsplit
    have hbase : parse_coordinates s =
        (if isEW d1 && !isEW d2 then some (v2, v1)
         else if isNS d2 && !isNS d1 then some (v2, v1)
         else some (v1, v2)) := by
      unfold parse_coordinates
      rw [if_neg h0, hsplit]
      dsimp only
      rw [h1, h2]
    constructor
    · rintro (⟨ha, hb⟩ | ⟨ha, hb⟩)
      · rw [hbase, if_pos (by rw [ha, hb]; rfl)]
      · by_cases hc : (isEW d1 && !isEW d2) = true
        · rw [hbase, if_pos hc]
        · rw [hbase, if_neg hc, if_pos (by rw [ha, hb]; rfl)]
    · intro hcond
      rw [hbase]
      cases d1 <;> cases d2 <;> simp [isEW, isNS] at hcond ⊢
  · decide

/-- C5 witness: `"E126.9780, N37.5665"` has its components swapped because
the first carries an E direction and the second an N direction. -/
theorem parse_coordinates_c5_witness :
    parse_coordinates ("E126.9780, N37.5665".data) = some (37.5665, 126.978) :=
  ((parse_coordinates_c5.1 ("E126.9780, N37.5665".data)
      ("E126.9780".data) ("N37.5665".data) 126.978 37.5665 .E .N
      (by decide) (by decide) (by decide)).1 (Or.inl ⟨rfl, rfl⟩))

/-! ## Theorems for claim C6 -/

/-- C6 counterexample: `parse_coordinates` does NOT consume Korean direction
words: the well-formed Korean pair with 북위/동경 prefixes returns absent. -/
theorem parse_coordinates_c6_counterexample :
    parse_coordinates ("북위 37도 33분 59초, 동경 126도 58분 41초".data) = none := by
  decide

/-- C6 (amended): `parse_coordinates` accepts Korean DMS pairs only without
direction words; a component carrying 북위 is rejected by
`_parse_single_coord`.  Korean direction words are consumed by the text
scanner's first pattern instead, where 북위/남위/동경/서경 map to N/S/E/W
with sign flips and direction-based axis assignment. -/
theorem parse_coordinates_c6_amended :
    parse_coordinates ("37도 33분 59초, 126도 58분 41초".data) =
      some (37 + 33/60 + 59/3600, 126 + 58/60 + 41/3600) ∧
    parse_single_coord ("북위 37도 33분 59초".data) = none ∧
    convertGroups (.kor1 .bukwi 37 (some 33) (some 59)
        .donggyeong 126 (some 58) (some 41) "m") =
      (37 + 33/60 + 59/3600, 126 + 58/60 + 41/3600) ∧
    convertGroups (.kor1 .namwi 37 (some 33) (some 59)
        .seogyeong 126 (some 58) (some 41) "m") =
      (-(37 + 33/60 + 59/3600), -(126 + 58/60 + 41/3600)) ∧
    convertGroups (.kor1 .donggyeong 126 (some 58) (some 41)
        .bukwi 37 (some 33) (some 59) "m") =
      (37 + 33/60 + 59/3600, 126 + 58/60 + 41/3600) := by
  refine ⟨by decide, by decide, by decide, by decide, by decide⟩

/-! ## Theorems for claim C9 -/

/-- C9: the parsing and scanning functions are total functions in this
embedding (no exception paths); on empty, whitespace-only and malformed
input `parse_coordinates` returns the explicit absent value, and a scan
that recognizes nothing returns the empty list. -/
theorem parse_scan_no_throw_c9 :
    parse_coordinates ("".data) = none ∧
    parse_coordinates ("   ".data) = none ∧
    parse_coordinates ("not a coordinate".data) = none ∧
    scan_coordinates_in_text [] = [] := by
  refine ⟨by decide, by decide, by decide, by decide⟩

/-! ## Theorems for claim C10 -/

/-! ## Rounding lemmas (shared helpers) -/

/-- `pyRound` of an integer is itself. -/
theorem pyRound_intCast (n : ℤ) : pyRound (n : ℚ) = n := by
  unfold pyRound
  rw [Int.floor_intCast]
  norm_num

/-- `pyRound` is non-negative on non-negative inputs. -/
theorem pyRound_nonneg (q : ℚ) (h : 0 ≤ q) : 0 ≤ pyRound q := by
  have hf : (0 : ℤ) ≤ ⌊q⌋ := Int.floor_nonneg.mpr h
  unfold pyRound
  split_ifs <;> omega

/-- `pyRound q ≤ q + 1/2`. -/
theorem pyRound_le (q : ℚ) : (pyRound q : ℚ) ≤ q + 1/2 := by
  have h1 : (⌊q⌋ : ℚ) ≤ q := Int.floor_le q
  unfold pyRound
  split_ifs with hlt hgt heven <;> push_cast <;> linarith

/-- `q - 1/2 ≤ pyRound q`. -/
theorem pyRound_ge (q : ℚ) : q - 1/2 ≤ (pyRound q : ℚ) := by
  have h2 : q < ⌊q⌋ + 1 := Int.lt_floor_add_one q
  unfold pyRound
  split_ifs with hlt hgt heven <;> push_cast <;> linarith

/-! ## Pixel class exclusivity and counting lemmas (shared helpers) -/

/-- Each pixel belongs to at most one of the five classes: water and dense
vegetation have disjoint hue bands, and every later class explicitly
excludes the earlier ones. -/
theorem pixel_at_most_one (p : Pixel) :
    (if water p = true then 1 else 0) + (if dense_veg p = true then 1 else 0) +
      (if sparse_veg p = true then 1 else 0) + (if bare p = true then 1 else 0) +
      (if built p = true then 1 else 0) ≤ 1 := by
  by_cases hw : water p = true
  · have hd : dense_veg p = false := by
      simp only [water, decide_eq_true_eq] at hw
      obtain ⟨hw1, -, -⟩ := hw
      simp only [dense_veg, decide_eq_false_iff_not]
      rintro ⟨-, h85, -⟩
      omega
    have hsp : sparse_veg p = false := by simp [sparse_veg, hw]
    have hba : bare p = false := by simp [bare, hw]
    have hbu : built p = false := by simp [built, hw]
    simp [hw, hd, hsp, hba, hbu]
  · replace hw : water p = false := by simpa using hw
    by_cases hd : dense_veg p = true
    · have hsp : sparse_veg p = false := by simp [sparse_veg, hd]
      have hba : bare p = false := by simp [bare, hd]
      have hbu : built p = false := by simp [built, hd]
      simp [hw, hd, hsp, hba, hbu]
    · replace hd : dense_veg p = false := by simpa using hd
      by_cases hsp : sparse_veg p = true
      · have hba : bare p = false := by simp [bare, hsp]
        have hbu : built p = false := by simp [built, hsp]
        simp [hw, hd, hsp, hba, hbu]
      · replace hsp : sparse_veg p = false := by simpa using hsp
        by_cases hba : bare p = true
        · have hbu : built p = false := by simp [built, hba]
          simp [hw, hd, hsp, hba, hbu]
        · replace hba : bare p = false := by simpa using hba
          by_cases hbu : built p = true <;> simp_all

/-- Without a mask, the five class counts sum to at most the pixel count. -/
theorem counts_le_length (img : List Pixel) :
    img.countP water + img.countP dense_veg + img.countP sparse_veg +
      img.countP bare + img.countP built ≤ img.length := by
  induction img with
  | nil => simp
  | cons p t ih =>
    simp only [List.countP_cons, List.length_cons]
    have h1 := pixel_at_most_one p
    omega

/-- With a mask, the five masked class counts sum to at most the number of
masked-in entries. -/
theorem counts_le_count_true (img : List Pixel) :
    ∀ m : List Bool,
      ((img.zip m).countP fun pm => water pm.1 && pm.2) +
        ((img.zip m).countP fun pm => dense_veg pm.1 && pm.2) +
        ((img.zip m).countP fun pm => sparse_veg pm.1 && pm.2) +
        ((img.zip m).countP fun pm => bare pm.1 && pm.2) +
        ((img.zip m).countP fun pm => built pm.1 && pm.2) ≤ m.count true := by
  induction img with
  | nil => intro m; simp
  | cons p t ih =>
    intro m
    cases m with
    | nil => simp
    | cons b bs =>
      simp only [List.zip_cons_cons, List.countP_cons, List.count_cons]
      have h1 := pixel_at_most_one p
      have h2 := ih bs
      cases b <;> simp <;> omega

/-! ## Finalization lemmas (shared helpers) -/

/-- The largest-class adjustment: when the five rounded percentages are
non-negative and their sum lies in `[98, 102]`, the adjusted result is
non-negative in every class and sums to exactly 100. -/
theorem adjustLargest_spec (xw xdv xsv xba xbu : ℤ)
    (hw : 0 ≤ xw) (hdv : 0 ≤ xdv) (hsv : 0 ≤ xsv) (hba : 0 ≤ xba)
    (hbu : 0 ≤ xbu)
    (hub : xw + xdv + xsv + xba + xbu ≤ 102)
    (hlb : 98 ≤ xw + xdv + xsv + xba + xbu) :
    0 ≤ (adjustLargest xw xdv xsv xba xbu
        (100 - (xw + xdv + xsv + xba + xbu))).dense_veg ∧
    0 ≤ (adjustLargest xw xdv xsv xba xbu
        (100 - (xw + xdv + xsv + xba + xbu))).sparse_veg ∧
    0 ≤ (adjustLargest xw xdv xsv xba xbu
        (100 - (xw + xdv + xsv + xba + xbu))).bare ∧
    0 ≤ (adjustLargest xw xdv xsv xba xbu
        (100 - (xw + xdv + xsv + xba + xbu))).built ∧
    0 ≤ (adjustLargest xw xdv xsv xba xbu
        (100 - (xw + xdv + xsv + xba + xbu))).water ∧
    resultSum (adjustLargest xw xdv xsv xba xbu
        (100 - (xw + xdv + xsv + xba + xbu))) = 100 := by
  unfold adjustLargest resultSum
  set mx := max xw (max xdv (max xsv (max xba xbu))) with hmx
  have m1 : xw ≤ mx := le_max_left _ _
  have m2 : xdv ≤ mx := le_trans (le_max_left _ _) (le_max_right _ _)
  have m3 : xsv ≤ mx :=
    le_trans (le_trans (le_max_left _ _) (le_max_right _ _)) (le_max_right _ _)
  have m4 : xba ≤ mx :=
    le_trans (le_trans (le_trans (le_max_left _ _) (le_max_right _ _))
      (le_max_right _ _)) (le_max_right _ _)
  have m5 : xbu ≤ mx :=
    le_trans (le_trans (le_trans (le_max_right _ _) (le_max_right _ _))
      (le_max_right _ _)) (le_max_right _ _)
  have hat : mx = xw ∨ mx = xdv ∨ mx = xsv ∨ mx = xba ∨ mx = xbu := by
    rcases max_choice xba xbu with h | h <;>
      rcases max_choice xsv (max xba xbu) with h' | h' <;>
      rcases max_choice xdv (max xsv (max xba xbu)) with h'' | h'' <;>
      rcases max_choice xw (max xdv (max xsv (max xba xbu))) with h''' | h''' <;>
      rw [hmx] <;> omega
  split_ifs with h1 h2 h3 h4 <;>
    refine ⟨?_, ?_, ?_, ?_, ?_, ?_⟩ <;> dsimp only <;>
    rcases hat with h | h | h | h | h <;> omega

/-- The percentage stage: for non-negative counts with positive sum, every
class of the result is non-negative and the five classes sum to 100. -/
theorem finalizePercent_spec (cw cdv csv cba cbu : ℤ)
    (h0w : 0 ≤ cw) (h0dv : 0 ≤ cdv) (h0sv : 0 ≤ csv) (h0ba : 0 ≤ cba)
    (h0bu : 0 ≤ cbu) (hpos : 0 < cw + cdv + csv + cba + cbu) :
    0 ≤ (finalizePercent cw cdv csv cba cbu).dense_veg ∧
    0 ≤ (finalizePercent cw cdv csv cba cbu).sparse_veg ∧
    0 ≤ (finalizePercent cw cdv csv cba cbu).bare ∧
    0 ≤ (finalizePercent cw cdv csv cba cbu).built ∧
    0 ≤ (finalizePercent cw cdv csv cba cbu).water ∧
    resultSum (finalizePercent cw cdv csv cba cbu) = 100 := by
  have hT0 : ¬(cw + cdv + csv + cba + cbu = 0) := by omega
  set T := cw + cdv + csv + cba + cbu with hT
  have hTq : (0 : ℚ) < (T : ℚ) := by exact_mod_cast hpos
  have hTne : ((T : ℤ) : ℚ) ≠ 0 := by exact_mod_cast hT0
  have hshare : (cw : ℚ) * 100 / (T : ℚ) + (cdv : ℚ) * 100 / (T : ℚ) +
      (csv : ℚ) * 100 / (T : ℚ) + (cba : ℚ) * 100 / (T : ℚ) +
      (cbu : ℚ) * 100 / (T : ℚ) = 100 := by
    rw [div_add_div_same, div_add_div_same, div_add_div_same,
      div_add_div_same, div_eq_iff hTne]
    have : ((cw : ℚ) + cdv + csv + cba + cbu) = (T : ℚ) := by
      rw [hT]; push_cast; ring
    nlinarith [this]
  have hnn : ∀ c : ℤ, 0 ≤ c → 0 ≤ pctRound c T := by
    intro c hc
    apply pyRound_nonneg
    positivity
  have hle : ∀ c : ℤ, (pctRound c T : ℚ) ≤ (c : ℚ) * 100 / (T : ℚ) + 1/2 :=
    fun c => pyRound_le _
  have hge : ∀ c : ℤ, (c : ℚ) * 100 / (T : ℚ) - 1/2 ≤ (pctRound c T : ℚ) :=
    fun c => pyRound_ge _
  set S := pctRound cw T + pctRound cdv T + pctRound csv T + pctRound cba T +
    pctRound cbu T with hS
  have hSub : S ≤ 102 := by
    have hq : ((2 * S : ℤ) : ℚ) ≤ 205 := by
      push_cast [hS]
      have := hle cw
      have := hle cdv
      have := hle csv
      have := hle cba
      have := hle cbu
      linarith
    have : (2 * S : ℤ) ≤ 205 := by exact_mod_cast hq
    omega
  have hSlb : 98 ≤ S := by
    have hq : (195 : ℚ) ≤ ((2 * S : ℤ) : ℚ) := by
      push_cast [hS]
      have := hge cw
      have := hge cdv
      have := hge csv
      have := hge cba
      have := hge cbu
      linarith
    have : (195 : ℤ) ≤ 2 * S := by exact_mod_cast hq
    omega
  unfold finalizePercent
  rw [← hT]
  dsimp only
  rw [if_neg hT0]
  by_cases hdiff : 100 - (pctRound cw T + pctRound cdv T + pctRound csv T +
      pctRound cba T + pctRound cbu T) = 0
  · rw [if_pos hdiff]
    refine ⟨hnn cdv h0dv, hnn csv h0sv, hnn cba h0ba, hnn cbu h0bu,
      hnn cw h0w, ?_⟩
    unfold resultSum
    dsimp only
    omega
  · rw [if_neg hdiff]
    have := adjustLargest_spec (pctRound cw T) (pctRound cdv T)
      (pctRound csv T) (pctRound cba T) (pctRound cbu T)
      (hnn cw h0w) (hnn cdv h0dv) (hnn csv h0sv) (hnn cba h0ba) (hnn cbu h0bu)
      (by omega) (by omega)
    exact this

/-- The redistribution step never decreases a count and keeps it
non-negative when the unclassified remainder is non-negative. -/
theorem redistribute_ge (u : ℤ) (classified : ℕ) (c : ℕ) (hu : 0 ≤ u) :
    (c : ℤ) ≤ redistribute u classified c := by
  unfold redistribute
  have : 0 ≤ Int.tdiv (u * (c : ℤ)) (classified : ℤ) :=
    Int.tdiv_nonneg (by positivity) (by positivity)
  omega

/-- `finalize` on counts bounded by a positive region size: every class of
the result is non-negative and the classes sum to 100. -/
theorem finalize_spec (w dv sv ba bu total : ℕ)
    (hle : w + dv + sv + ba + bu ≤ total) (ht : 1 ≤ total) :
    0 ≤ (finalize w dv sv ba bu total).dense_veg ∧
    0 ≤ (finalize w dv sv ba bu total).sparse_veg ∧
    0 ≤ (finalize w dv sv ba bu total).bare ∧
    0 ≤ (finalize w dv sv ba bu total).built ∧
    0 ≤ (finalize w dv sv ba bu total).water ∧
    resultSum (finalize w dv sv ba bu total) = 100 := by
  unfold finalize finalizeCounts
  by_cases hC : 0 < w + dv + sv + ba + bu
  · rw [if_pos hC]
    dsimp only
    have hu : (0 : ℤ) ≤ (total : ℤ) - ((w + dv + sv + ba + bu : ℕ) : ℤ) := by
      push_cast
      omega
    have hw := redistribute_ge _ (w + dv + sv + ba + bu) w hu
    have hdv := redistribute_ge _ (w + dv + sv + ba + bu) dv hu
    have hsv := redistribute_ge _ (w + dv + sv + ba + bu) sv hu
    have hba := redistribute_ge _ (w + dv + sv + ba + bu) ba hu
    have hbu := redistribute_ge _ (w + dv + sv + ba + bu) bu hu
    exact finalizePercent_spec _ _ _ _ _
      (le_trans (by positivity) hw) (le_trans (by positivity) hdv)
      (le_trans (by positivity) hsv) (le_trans (by positivity) hba)
      (le_trans (by positivity) hbu)
      (by push_cast at hw hdv hsv hba hbu ⊢; omega)
  · rw [if_neg hC]
    dsimp only
    exact finalizePercent_spec _ _ _ _ _
      (by positivity) (by positivity) (by positivity) (by positivity)
      (by positivity) (by omega)

/-- `round(0 * 100 / tf) = 0`. -/
theorem pctRound_zero (tf : ℤ) : pctRound 0 tf = 0 := by
  unfold pctRound
  norm_num
  simpa using pyRound_intCast 0

/-- `round(tf * 100 / tf) = 100` for nonzero `tf`. -/
theorem pctRound_self (tf : ℤ) (h : tf ≠ 0) : pctRound tf tf = 100 := by
  unfold pctRound
  have hq : ((tf : ℤ) : ℚ) ≠ 0 := Int.cast_ne_zero.mpr h
  rw [mul_comm, mul_div_assoc, div_self hq, mul_one]
  simpa using pyRound_intCast 100

/-- When nothing was classified, the whole region is assigned to `bare`. -/
theorem finalize_zeroclass (total : ℕ) (ht : 1 ≤ total) :
    finalize 0 0 0 0 0 total = ⟨0, 0, 100, 0, 0⟩ := by
  unfold finalize finalizeCounts
  rw [if_neg (by omega)]
  dsimp only
  unfold finalizePercent
  dsimp only
  simp only [Nat.cast_zero, zero_add, add_zero]
  rw [if_neg (show ¬((total : ℤ) = 0) by omega)]
  rw [pctRound_zero, pctRound_self _ (show (total : ℤ) ≠ 0 by omega)]
  norm_num

/-! ## Theorems for claim C1 -/

/-- C1: for every raster and optional mask, `classify_landcover` returns
non-negative integer percentages for exactly the five classes; when the
region has at least one pixel they sum to exactly 100; when no pixel matches
any class predicate the whole region goes to `bare` (bare = 100, rest 0);
and a supplied mask selecting zero pixels yields the all-zero result. -/
theorem classify_landcover_c1 (img : List Pixel) (mask : Option (List Bool)) :
    (0 ≤ (classify_landcover img mask).dense_veg ∧
      0 ≤ (classify_landcover img mask).sparse_veg ∧
      0 ≤ (classify_landcover img mask).bare ∧
      0 ≤ (classify_landcover img mask).built ∧
      0 ≤ (classify_landcover img mask).water) ∧
    (1 ≤ regionTotal img mask →
      resultSum (classify_landcover img mask) = 100) ∧
    (1 ≤ regionTotal img mask →
      classCount water img mask = 0 → classCount dense_veg img mask = 0 →
      classCount sparse_veg img mask = 0 → classCount bare img mask = 0 →
      classCount built img mask = 0 →
      classify_landcover img mask = ⟨0, 0, 100, 0, 0⟩) ∧
    (∀ m, mask = some m → m.count true = 0 →
      classify_landcover img mask = ⟨0, 0, 0, 0, 0⟩) := by
  have hcounts : classCount water img mask + classCount dense_veg img mask +
      classCount sparse_veg img mask + classCount bare img mask +
      classCount built img mask ≤ regionTotal img mask := by
    cases mask with
    | none => exact counts_le_length img
    | some m => exact counts_le_count_true img m
  by_cases htot : regionTotal img mask = 0
  · unfold classify_landcover
    rw [if_pos htot]
    refine ⟨⟨le_refl 0, le_refl 0, le_refl 0, le_refl 0, le_refl 0⟩,
      fun h => absurd h (by omega), fun h => absurd h (by omega),
      fun m hm hz => rfl⟩
  · have ht : 1 ≤ regionTotal img mask := by omega
    have hfin := finalize_spec _ _ _ _ _ _ hcounts ht
    unfold classify_landcover
    rw [if_neg htot]
    refine ⟨⟨hfin.1, hfin.2.1, hfin.2.2.1, hfin.2.2.2.1, hfin.2.2.2.2.1⟩,
      fun _ => hfin.2.2.2.2.2, ?_, ?_⟩
    · intro _ hw hdv hsv hba hbu
      rw [hw, hdv, hsv, hba, hbu]
      exact finalize_zeroclass _ ht
    · intro m hm hz
      exfalso
      apply htot
      rw [hm]
      exact hz

/-- C1 witness: a single water pixel without a mask has a one-pixel region
and its classification sums to 100. -/
theorem classify_landcover_c1_witness :
    resultSum (classify_landcover [⟨100, 255, 0, 0, 0, 0⟩] none) = 100 :=
  (classify_landcover_c1 [⟨100, 255, 0, 0, 0, 0⟩] none).2.1 (by decide)

/-- C10: minute/second fields are not validated against 60: a DMS input with
99 minutes parses to `D + M/60 + S/3600` (= 38.6664…, not absent), and the
Korean DMS form likewise accepts 99 minutes. -/
theorem parse_coordinates_c10 :
    parse_coordinates dmsOverflowInput =
      some (37 + 99/60 + 59/3600, 126 + 58/60 + 41/3600) ∧
    parse_coordinates ("37도 99분 59초, 126도 58분 41초".data) =
      some (37 + 99/60 + 59/3600, 126 + 58/60 + 41/3600) ∧
    (60 : ℕ) ≤ 99 := by
  refine ⟨by decide, by decide, by norm_num⟩

/-! ## Theorems for claim C8 -/

/-- C8: in the visiting loop, whenever the head entry's query yields a
non-falsy source date that was not seen before, is within the 5-year
recency window, and falls in June, July or August, the loop returns that
entry immediately — for every possible remainder of the catalog (so no
further entry is queried) and every loop state.  An empty catalog makes the
whole search return absent. -/
theorem fetch_wayback_summer_c8 :
    (∀ (now : ℚ) (e : WbEntry) (v : ℤ) (rest : List (WbEntry × WbResp))
        (seen : List ℤ) (best : Option (ℤ × WbEntry)),
      v ≠ 0 → v ∉ seen → ¬((v : ℚ) / 1000 < now - 157788000) →
      (gmMonth (Int.fdiv v 1000) = 6 ∨ gmMonth (Int.fdiv v 1000) = 7 ∨
        gmMonth (Int.fdiv v 1000) = 8) →
      wbLoop now ((e, .src v) :: rest) seen best = (some e, best)) ∧
    (∀ (now : ℚ) (resps : List WbResp) (maxTries : ℕ),
      fetch_wayback_summer_by_capture now [] resps maxTries = none) := by
  constructor
  · intro now e v rest seen best hv0 hmem hts hmon
    simp only [wbLoop]
    rw [if_neg hv0, if_neg hmem, if_neg hts, if_pos hmon]
  · intro now resps maxTries
    simp [fetch_wayback_summer_by_capture, sortDescWb, wbLoop]

/-- C8 witness: with `now` in November 2023 and a source date of
2023-07-15T00:00Z (month 7, fresh, within 5 years), the loop returns the
head entry at once. -/
theorem fetch_wayback_summer_c8_witness :
    wbLoop 1700000000 [(⟨"2023-10-11", 5, "u"⟩, .src 1689379200000)] [] none =
      (some ⟨"2023-10-11", 5, "u"⟩, none) :=
  fetch_wayback_summer_c8.1 1700000000 ⟨"2023-10-11", 5, "u"⟩ 1689379200000
    [] [] none (by decide) (by decide) (by norm_num) (by decide)

end GhEval
